import Mathlib

/-!
Verification development for the coletas web application (app.py).

The parsing, normalization and matching pipeline of app.py is embedded
shallowly: strings are lists of characters, pandas data frames are a header
together with cell rows, and the effectful pieces (file system, upload
request handling) are modelled as explicit state passed to pure functions.
Every definition is translated from the corresponding function of app.py;
the doc comment of each definition names its source.
-/

/-- Converts a Lean string literal to the character-list representation used
throughout this development. -/
def strOf (s : String) : List Char := s.toList

/-- Characters matched by the Python regex class for whitespace on ASCII
text: space, tab, line feed, carriage return, vertical tab, form feed. -/
def isPySpace (c : Char) : Bool :=
  c = ' ' || c = '\t' || c = '\n' || c = '\r' || c = '\x0b' || c = '\x0c'

/-- Characters matched by the Python regex class for word characters on
ASCII text: letters, digits and the underscore. -/
def isWordChar (c : Char) : Bool := c.isAlphanum || c = '_'

/-- Python str.strip on ASCII whitespace: drops leading and trailing
whitespace characters. -/
def pstrip (l : List Char) : List Char :=
  ((l.dropWhile isPySpace).reverse.dropWhile isPySpace).reverse

/-- Worker for collapseWs. The flag records whether the previous character
belonged to a whitespace run already rewritten to one space. -/
def collapseWsGo : List Char → Bool → List Char
  | [], _ => []
  | c :: rest, prev =>
    if isPySpace c then
      if prev then collapseWsGo rest true else ' ' :: collapseWsGo rest true
    else c :: collapseWsGo rest false

/-- The regex substitution used in app.py that rewrites every maximal run of
whitespace characters to a single space. -/
def collapseWs (l : List Char) : List Char := collapseWsGo l false

/-- The regex substitution in norm_text replacing every character that is
neither a word character nor whitespace by a space. -/
def subPunct (l : List Char) : List Char :=
  l.map (fun c => if isWordChar c || isPySpace c then c else ' ')

/-- Fragment of the unidecode transliteration table for the Latin-1 letters
this application manipulates. -/
def uniTable : List (Char × Char) :=
  [('á', 'a'), ('à', 'a'), ('â', 'a'), ('ã', 'a'), ('ä', 'a'),
   ('é', 'e'), ('è', 'e'), ('ê', 'e'), ('ë', 'e'),
   ('í', 'i'), ('ì', 'i'), ('î', 'i'), ('ï', 'i'),
   ('ó', 'o'), ('ò', 'o'), ('ô', 'o'), ('õ', 'o'), ('ö', 'o'),
   ('ú', 'u'), ('ù', 'u'), ('û', 'u'), ('ü', 'u'),
   ('ç', 'c'), ('ñ', 'n'),
   ('Á', 'A'), ('À', 'A'), ('Â', 'A'), ('Ã', 'A'), ('Ä', 'A'),
   ('É', 'E'), ('È', 'E'), ('Ê', 'E'), ('Ë', 'E'),
   ('Í', 'I'), ('Ì', 'I'), ('Î', 'I'), ('Ï', 'I'),
   ('Ó', 'O'), ('Ò', 'O'), ('Ô', 'O'), ('Õ', 'O'), ('Ö', 'O'),
   ('Ú', 'U'), ('Ù', 'U'), ('Û', 'U'), ('Ü', 'U'),
   ('Ç', 'C'), ('Ñ', 'N'),
   ('º', 'o'), ('ª', 'a')]

/-- Model of the unidecode transliteration of one character: identity on
ASCII, base letter for the common Latin-1 accented letters, and the empty
transliteration for the remaining characters (unidecode maps characters
missing from its tables to the empty string). -/
def unidecodeChar (c : Char) : List Char :=
  if c.toNat < 128 then [c]
  else
    match uniTable.find? (fun p => p.1 == c) with
    | some p => [p.2]
    | none => []

/-- Model of unidecode on a whole string. -/
def unidecodeStr (l : List Char) : List Char :=
  (l.map unidecodeChar).flatten

/-- Embedding of norm_text from app.py: transliterate with unidecode and
uppercase, strip, replace every non-word non-space character by a space,
then collapse whitespace runs to a single space — in exactly that order. -/
def norm_text (s : List Char) : List Char :=
  collapseWs (subPunct (pstrip ((unidecodeStr s).map Char.toUpper)))

/-- Embedding of norm_cep from app.py: keep only the digit characters, then
left-pad with zeros to width 8 if any digit remains (Python zfill), else
return the empty string. -/
def norm_cep (s : List Char) : List Char :=
  let d := s.filter Char.isDigit
  if d.isEmpty then [] else List.replicate (8 - d.length) '0' ++ d

/-- Embedding of clean_txt from parse_txt_to_df: strip, replace underscores
by spaces, collapse whitespace runs. A missing cell is already the empty
string in this model. -/
def clean_txt (s : List Char) : List Char :=
  collapseWs ((pstrip s).map (fun c => if c = '_' then ' ' else c))

/-- Key construction of parse_txt_to_df: the normalized sender, address and
postal code joined by a literal pipe character. -/
def montarChave (r e c : List Char) : List Char :=
  r ++ '|' :: (e ++ '|' :: c)

/-- Worker modelling a regex split on maximal nonempty delimiter runs (a
one-or-more repetition of a delimiter class). When the flag is set, the
accumulator holds the token that preceded the current delimiter run. -/
def splitRunsGo (p : Char → Bool) : List Char → List Char → Bool → List (List Char)
  | [], acc, inRun => if inRun then [acc.reverse, []] else [acc.reverse]
  | c :: rest, acc, inRun =>
    if p c then splitRunsGo p rest acc true
    else if inRun then acc.reverse :: splitRunsGo p rest [c] false
    else splitRunsGo p rest (c :: acc) false

/-- Model of a regex split on maximal runs of one or more delimiter
characters, keeping the empty tokens a leading or trailing run produces. -/
def splitRuns (p : Char → Bool) (l : List Char) : List (List Char) :=
  splitRunsGo p l [] false

/-- Tests whether a list starts with a character satisfying the predicate. -/
def headSat (p : Char → Bool) : List Char → Bool
  | [] => false
  | c :: _ => p c

/-- Worker for splitRuns2; the flag has the same meaning as in
splitRunsGo. -/
def splitRuns2Go (p : Char → Bool) : List Char → List Char → Bool → List (List Char)
  | [], acc, inRun => if inRun then [acc.reverse, []] else [acc.reverse]
  | c :: rest, acc, inRun =>
    if p c then
      if inRun then splitRuns2Go p rest acc true
      else if headSat p rest then splitRuns2Go p rest acc true
      else splitRuns2Go p rest (c :: acc) false
    else if inRun then acc.reverse :: splitRuns2Go p rest [c] false
    else splitRuns2Go p rest (c :: acc) false

/-- Model of a regex split on maximal runs of two or more delimiter
characters: a lone delimiter character is content, a run of two or more
separates tokens. -/
def splitRuns2 (p : Char → Bool) (l : List Char) : List (List Char) :=
  splitRuns2Go p l [] false

/-- Embedding of split_linha from app.py: split on tab runs when the line
contains a tab; otherwise split on runs of two or more whitespace
characters; and if that produces a single column, split on any whitespace
run. -/
def split_linha (l : List Char) : List (List Char) :=
  if '\t' ∈ l then splitRuns (fun c => c == '\t') l
  else
    let cols := splitRuns2 isPySpace l
    if cols.length = 1 then splitRuns isPySpace l else cols

/-- Python str.lower on the uppercase Latin-1 accented letters. -/
def lowerTable : List (Char × Char) :=
  [('Á', 'á'), ('À', 'à'), ('Â', 'â'), ('Ã', 'ã'), ('Ä', 'ä'),
   ('É', 'é'), ('È', 'è'), ('Ê', 'ê'), ('Ë', 'ë'),
   ('Í', 'í'), ('Ì', 'ì'), ('Î', 'î'), ('Ï', 'ï'),
   ('Ó', 'ó'), ('Ò', 'ò'), ('Ô', 'ô'), ('Õ', 'õ'), ('Ö', 'ö'),
   ('Ú', 'ú'), ('Ù', 'ù'), ('Û', 'û'), ('Ü', 'ü'),
   ('Ç', 'ç'), ('Ñ', 'ñ')]

/-- Python str.lower restricted to the characters this application
manipulates: ASCII lowering plus the common Latin-1 accented letters. -/
def pyLower (c : Char) : Char :=
  match lowerTable.find? (fun p => p.1 == c) with
  | some p => p.2
  | none => c.toLower

/-- Substring test, modelling the Python membership operator on strings:
containsSub s pat decides whether pat occurs contiguously inside s. -/
def containsSub : List Char → List Char → Bool
  | s, pat =>
    pat.isPrefixOf s ||
      match s with
      | [] => false
      | _ :: t => containsSub t pat

/-- Embedding of encontrar_linha_cabecalho from app.py: index of the first
line whose lowercase form contains the sender marker, an address marker
(accented or not) and the postal marker; 0 when no line matches. -/
def encontrar_linha_cabecalho (linhas : List (List Char)) : Nat :=
  match linhas.findIdx? (fun l =>
      let low := l.map pyLower
      containsSub low (strOf "remetente") &&
        (containsSub low (strOf "endereço") || containsSub low (strOf "endereco")) &&
        containsSub low (strOf "cep")) with
  | some i => i
  | none => 0

/-- Embedding of the column renaming map built inside parse_txt_to_df, for
one raw column name: the first matching rule wins and an unmatched name is
kept unchanged. -/
def mapColName (c : List Char) : List Char :=
  let low := (pstrip c).map pyLower
  if containsSub low (strOf "remetent") then strOf "Remetente"
  else if containsSub low (strOf "endereço orig") || containsSub low (strOf "endereco orig")
      || (containsSub low (strOf "endereço") && containsSub low (strOf "orig")) then
    strOf "EnderecoOrigem"
  else if containsSub low (strOf "cep orig")
      || (containsSub low (strOf "cep") && containsSub low (strOf "orig")) then
    strOf "CEPOrigem"
  else if containsSub low (strOf "endereço") && containsSub low (strOf "dest") then
    strOf "EnderecoDestino"
  else if containsSub low (strOf "destinat") then strOf "Destinatario"
  else c

/-- Worker modelling Python str.splitlines restricted to the line feed and
carriage return terminators; a carriage return directly followed by a line
feed counts as a single break. -/
def pySplitlinesGo : List Char → List Char → List (List Char)
  | [], acc => if acc.isEmpty then [] else [acc.reverse]
  | '\r' :: '\n' :: rest, acc => acc.reverse :: pySplitlinesGo rest []
  | '\r' :: rest, acc => acc.reverse :: pySplitlinesGo rest []
  | '\n' :: rest, acc => acc.reverse :: pySplitlinesGo rest []
  | c :: rest, acc => pySplitlinesGo rest (c :: acc)

/-- Python str.rstrip with the line feed and carriage return characters. -/
def rstripNL (l : List Char) : List Char :=
  (l.reverse.dropWhile (fun c => c == '\n' || c == '\r')).reverse

/-- Line list built by parse_txt_to_df: split the decoded text into lines,
keep only the lines that are not blank, strip trailing newline characters
from each kept line. -/
def linhasOf (text : List Char) : List (List Char) :=
  (pySplitlinesGo text []).filterMap
    (fun l => if (pstrip l).isEmpty then none else some (rstripNL l))

/-- Model of the pandas data frame manipulated by app.py: a header naming
the columns, and the cell rows, every cell a string. -/
structure DF where
  header : List (List Char)
  rows : List (List (List Char))
deriving DecidableEq, Repr

/-- Name of the derived key column. -/
def chaveName : List Char := strOf "chave"

/-- Column read: the cells of the named column, row by row; a missing column
reads as empty strings (the pipeline only reads columns it has created). -/
def getCol (df : DF) (n : List Char) : List (List Char) :=
  df.rows.map (fun r => r.getD (df.header.findIdx (· == n)) [])

/-- Column write, modelling a pandas column assignment: overwrite the cells
of an existing column, or append a fresh column on the right. -/
def setCol (df : DF) (n : List Char) (vals : List (List Char)) : DF :=
  if n ∈ df.header then
    ⟨df.header, (df.rows.zip vals).map (fun p => p.1.set (df.header.findIdx (· == n)) p.2)⟩
  else ⟨df.header ++ [n], (df.rows.zip vals).map (fun p => p.1 ++ [p.2])⟩

/-- Applies a cell transformation to one column, modelling the pandas apply
plus assignment idiom of app.py. -/
def applyCol (df : DF) (n : List Char) (f : List Char → List Char) : DF :=
  setCol df n ((getCol df n).map f)

/-- One step of the guarantee loop of parse_txt_to_df: create the column
filled with empty strings when it is absent. -/
def ensureCol (df : DF) (n : List Char) : DF :=
  if n ∈ df.header then df else setCol df n (df.rows.map (fun _ => []))

/-- Embedding of parse_txt_to_df from app.py on already decoded text:
locate the header line, tokenize it, pad or truncate every data row to the
header width, rename the recognized columns, guarantee the three canonical
columns, clean them, derive the normalized columns and the key column. -/
def parse_txt_to_df (text : List Char) : DF :=
  let linhas := linhasOf text
  if linhas.isEmpty then ⟨[], []⟩
  else
    let idx := encontrar_linha_cabecalho linhas
    let header := split_linha (linhas.getD idx [])
    let dados := (linhas.drop (idx + 1)).map (fun l =>
      let cols := split_linha l
      (cols ++ List.replicate (header.length - cols.length) []).take header.length)
    let df : DF := ⟨header.map mapColName, dados⟩
    let df := ensureCol (ensureCol (ensureCol df (strOf "Remetente"))
      (strOf "EnderecoOrigem")) (strOf "CEPOrigem")
    let df := applyCol df (strOf "Remetente") clean_txt
    let df := applyCol df (strOf "EnderecoOrigem") clean_txt
    let df := applyCol df (strOf "CEPOrigem") clean_txt
    let df := setCol df (strOf "remetente_norm") ((getCol df (strOf "Remetente")).map norm_text)
    let df := setCol df (strOf "endereco_norm") ((getCol df (strOf "EnderecoOrigem")).map norm_text)
    let df := setCol df (strOf "cep_norm") ((getCol df (strOf "CEPOrigem")).map norm_cep)
    setCol df chaveName
      (List.zipWith (fun r p => montarChave r p.1 p.2)
        (getCol df (strOf "remetente_norm"))
        ((getCol df (strOf "endereco_norm")).zip (getCol df (strOf "cep_norm"))))

/-- Name of the boolean column the matcher adds. -/
def isRepName : List Char := strOf "is_repetido"

/-- Cell representation of a pandas boolean value. -/
def boolCell (b : Bool) : List Char := if b then strOf "True" else strOf "False"

/-- Key of one row, read from the key column of the table the row belongs
to. -/
def rowChave (df : DF) (r : List (List Char)) : List Char :=
  r.getD (df.header.findIdx (· == chaveName)) []

/-- Embedding of the repeat test of upload_dia: membership of a daily key in
the key set built from the base table. -/
def is_repetido (baseKeys : List (List Char)) (k : List Char) : Bool :=
  baseKeys.contains k

/-- Embedding of the matching step of upload_dia: build the key set of the
base table, flag every daily row, store the flags as a boolean column, and
keep exactly the flagged rows in their original order. -/
def cruzamento (dfBase dfDia : DF) : DF :=
  let baseKeys := getCol dfBase chaveName
  let flags := dfDia.rows.map (fun r => is_repetido baseKeys (rowChave dfDia r))
  let dfFlag := setCol dfDia isRepName (flags.map boolCell)
  ⟨dfFlag.header, ((dfFlag.rows.zip flags).filter (fun p => p.2)).map (fun p => p.1)⟩

/-- Allowed upload extensions of app.py. -/
def ALLOWED_EXT : List (List Char) := [strOf "txt", strOf "csv"]

/-- Extension extraction of upload_dia: the lowercase text after the last
dot of the file name, or the empty string when the name has no dot. -/
def extOf (fn : List Char) : List Char :=
  if '.' ∈ fn then (fn.reverse.takeWhile (fun c => c != '.')).reverse.map pyLower
  else []

/-- Outcome of one upload request, mirroring the response branches of
upload_dia. -/
inductive UploadResp
  | semArquivo
  | semNome
  | extNaoPermitida
  | erroParse (msg : List Char)
  | processado (total : Nat)
deriving DecidableEq, Repr

/-- One upload request: whether the request carries a file, the file name,
and the outcome of reading plus parsing the file content (a raised
exception is modelled as the error case, carrying its message). -/
structure UploadReq where
  hasFile : Bool
  filename : List Char
  conteudo : Except (List Char) DF

/-- Embedding of the upload_dia route. The state is the stored match
result; the function returns the new state and the response. Validation
failures and parse errors leave the state unchanged; on success the match
result is replaced by the repeat table. -/
def upload_dia (dfBase : DF) (dfMatch : Option DF) (req : UploadReq) :
    Option DF × UploadResp :=
  if !req.hasFile then (dfMatch, .semArquivo)
  else if req.filename.isEmpty then (dfMatch, .semNome)
  else if !(ALLOWED_EXT.contains (extOf req.filename)) then (dfMatch, .extNaoPermitida)
  else
    match req.conteudo with
    | .error e => (dfMatch, .erroParse e)
    | .ok dfDia =>
      let reps := cruzamento dfBase dfDia
      (some reps, .processado reps.rows.length)

/-- How ensure_base_loaded obtained the base table. -/
inductive BaseOrigin
  | snapshotDireto
  | reparseSnapshot
  | parseTxt
  | vazia
deriving DecidableEq, Repr

/-- Embedding of the control flow of ensure_base_loaded over an abstract
file system state: whether the csv snapshot exists, whether reading it
succeeds, whether the loaded snapshot has the key column, and whether the
raw txt source exists. Returns where the base table came from — the loaded
snapshot itself, a re-parse of the snapshot file through parse_txt_to_df,
a parse of the raw txt source, or the empty default table — and whether the
snapshot file is rewritten (the to_csv call). -/
def ensure_base_loaded (csvExists csvLoadOk csvHasChave txtExists : Bool) :
    BaseOrigin × Bool :=
  if csvExists then
    if csvLoadOk then
      if csvHasChave then (.snapshotDireto, false) else (.reparseSnapshot, false)
    else if txtExists then (.parseTxt, true) else (.vazia, false)
  else if txtExists then (.parseTxt, true) else (.vazia, false)

/-- A byte. -/
abbrev Byte := Fin 256

/-- UTF-8 continuation byte test. -/
def isCont (b : Byte) : Bool := 0x80 ≤ b.val && b.val ≤ 0xBF

/-- Range of the second byte of a three-byte sequence, which depends on the
lead byte: the strict utf-8 codec excludes overlong encodings and
surrogates. -/
def cont2ok (b c : Byte) : Bool :=
  if b.val = 0xE0 then 0xA0 ≤ c.val && c.val ≤ 0xBF
  else if b.val = 0xED then 0x80 ≤ c.val && c.val ≤ 0x9F
  else isCont c

/-- Range of the second byte of a four-byte sequence, which depends on the
lead byte: the strict utf-8 codec excludes overlong encodings and code
points beyond the last scalar value. -/
def cont3ok (b c : Byte) : Bool :=
  if b.val = 0xF0 then 0x90 ≤ c.val && c.val ≤ 0xBF
  else if b.val = 0xF4 then 0x80 ≤ c.val && c.val ≤ 0x8F
  else isCont c

/-- Strict UTF-8 decoder, modelling the decode call with the utf-8 codec of
try_decode_bytes: fails on any malformed input. -/
def utf8Decode : List Byte → Option (List Char)
  | [] => some []
  | b :: rest =>
    if b.val < 0x80 then (utf8Decode rest).map (fun s => Char.ofNat b.val :: s)
    else if 0xC2 ≤ b.val && b.val ≤ 0xDF then
      match rest with
      | c :: r2 =>
        if isCont c then
          (utf8Decode r2).map (fun s => Char.ofNat (b.val % 0x20 * 0x40 + c.val % 0x40) :: s)
        else none
      | [] => none
    else if 0xE0 ≤ b.val && b.val ≤ 0xEF then
      match rest with
      | c :: d :: r3 =>
        if cont2ok b c && isCont d then
          (utf8Decode r3).map (fun s =>
            Char.ofNat (b.val % 0x10 * 0x1000 + c.val % 0x40 * 0x40 + d.val % 0x40) :: s)
        else none
      | _ => none
    else if 0xF0 ≤ b.val && b.val ≤ 0xF4 then
      match rest with
      | c :: d :: e :: r4 =>
        if cont3ok b c && isCont d && isCont e then
          (utf8Decode r4).map (fun s =>
            Char.ofNat (b.val % 0x8 * 0x40000 + c.val % 0x40 * 0x1000 +
              d.val % 0x40 * 0x40 + e.val % 0x40) :: s)
        else none
      | _ => none
    else none

/-- The latin-1 decode: code point equal to the byte value. ISO-8859-1
assigns a character to every byte value, so this decoder is total. -/
def latin1Decode (bs : List Byte) : List Char :=
  bs.map (fun b => Char.ofNat b.val)

/-- The latin-1 attempt in the encoding chain of try_decode_bytes: an
attempt that never fails. -/
def latin1DecodeOpt (bs : List Byte) : Option (List Char) :=
  some (latin1Decode bs)

/-- The cp1252 decode of one byte: the block from 0x80 to 0x9F holds the
Windows-1252 punctuation characters, five byte values of that block are
undefined and make the decode fail, and every other byte decodes as in
latin-1. -/
def cp1252Char (b : Byte) : Option Char :=
  if b.val < 0x80 || 0xA0 ≤ b.val then some (Char.ofNat b.val)
  else match b.val with
    | 0x80 => some (Char.ofNat 0x20AC)
    | 0x82 => some (Char.ofNat 0x201A)
    | 0x83 => some (Char.ofNat 0x0192)
    | 0x84 => some (Char.ofNat 0x201E)
    | 0x85 => some (Char.ofNat 0x2026)
    | 0x86 => some (Char.ofNat 0x2020)
    | 0x87 => some (Char.ofNat 0x2021)
    | 0x88 => some (Char.ofNat 0x02C6)
    | 0x89 => some (Char.ofNat 0x2030)
    | 0x8A => some (Char.ofNat 0x0160)
    | 0x8B => some (Char.ofNat 0x2039)
    | 0x8C => some (Char.ofNat 0x0152)
    | 0x8E => some (Char.ofNat 0x017D)
    | 0x91 => some (Char.ofNat 0x2018)
    | 0x92 => some (Char.ofNat 0x2019)
    | 0x93 => some (Char.ofNat 0x201C)
    | 0x94 => some (Char.ofNat 0x201D)
    | 0x95 => some (Char.ofNat 0x2022)
    | 0x96 => some (Char.ofNat 0x2013)
    | 0x97 => some (Char.ofNat 0x2014)
    | 0x98 => some (Char.ofNat 0x02DC)
    | 0x99 => some (Char.ofNat 0x2122)
    | 0x9A => some (Char.ofNat 0x0161)
    | 0x9B => some (Char.ofNat 0x203A)
    | 0x9C => some (Char.ofNat 0x0153)
    | 0x9E => some (Char.ofNat 0x017E)
    | _ => none

/-- The cp1252 attempt in the encoding chain. -/
def cp1252Decode (bs : List Byte) : Option (List Char) :=
  bs.mapM cp1252Char

/-- Lossy UTF-8 decode modelling the last resort of try_decode_bytes, the
decode call ignoring errors: valid sequences decode and offending bytes are
skipped. try_decode_bytes never reaches this decoder because the latin-1
attempt never fails. -/
def utf8Ignore : List Byte → List Char
  | [] => []
  | b :: rest =>
    if b.val < 0x80 then Char.ofNat b.val :: utf8Ignore rest
    else if 0xC2 ≤ b.val && b.val ≤ 0xDF then
      match h : rest with
      | c :: r2 =>
        if isCont c then Char.ofNat (b.val % 0x20 * 0x40 + c.val % 0x40) :: utf8Ignore r2
        else utf8Ignore rest
      | [] => []
    else if 0xE0 ≤ b.val && b.val ≤ 0xEF then
      match h : rest with
      | c :: d :: r3 =>
        if cont2ok b c && isCont d then
          Char.ofNat (b.val % 0x10 * 0x1000 + c.val % 0x40 * 0x40 + d.val % 0x40) ::
            utf8Ignore r3
        else utf8Ignore rest
      | _ => utf8Ignore rest
    else if 0xF0 ≤ b.val && b.val ≤ 0xF4 then
      match h : rest with
      | c :: d :: e :: r4 =>
        if cont3ok b c && isCont d && isCont e then
          Char.ofNat (b.val % 0x8 * 0x40000 + c.val % 0x40 * 0x1000 +
            d.val % 0x40 * 0x40 + e.val % 0x40) :: utf8Ignore r4
        else utf8Ignore rest
      | _ => utf8Ignore rest
    else utf8Ignore rest
termination_by l => l.length
decreasing_by all_goals (simp_wf <;> simp_all <;> omega)

/-- Embedding of try_decode_bytes from app.py: try utf-8, then latin-1,
then cp1252, returning at the first attempt that succeeds, with the lossy
utf-8 decode as last resort. -/
def try_decode_bytes (bs : List Byte) : List Char :=
  match utf8Decode bs with
  | some s => s
  | none =>
    match latin1DecodeOpt bs with
    | some s => s
    | none =>
      match cp1252Decode bs with
      | some s => s
      | none => utf8Ignore bs

/-- Tests whether a list starts with a whitespace character. -/
def startsSpace : List Char → Bool
  | [] => false
  | c :: _ => isPySpace c

/-- Tests that no two adjacent characters are both whitespace. -/
def noDoubleSpace : List Char → Bool
  | [] => true
  | c :: l => (!(isPySpace c && startsSpace l)) && noDoubleSpace l

/-- Claim C3 counterexample: on an input with nine digits the postal
normalization keeps all nine digits, so the result does not have exactly
eight characters, refuting the claim as stated. -/
theorem claim_C3_cex :
    (norm_cep (strOf "123456789")).length ≠ 8 ∧
      norm_cep (strOf "123456789") = strOf "123456789" := by
  decide

/-- Claim C3 amended: postal normalization strips every non-digit
character; if any digits remain the result is the digit sequence
left-padded with zeros to a length of at least 8 — exactly 8 when at most
8 digits remain — and if no digits remain the result is the empty string;
the three examples of the claim hold. -/
theorem claim_C3_amended :
    (∀ s : List Char,
      (s.filter Char.isDigit = [] → norm_cep s = []) ∧
      (s.filter Char.isDigit ≠ [] →
        norm_cep s =
          List.replicate (8 - (s.filter Char.isDigit).length) '0' ++
            s.filter Char.isDigit ∧
        (norm_cep s).length = max 8 (s.filter Char.isDigit).length)) ∧
    norm_cep (strOf "12.345-678") = strOf "12345678" ∧
    norm_cep (strOf "123") = strOf "00000123" ∧
    norm_cep (strOf "") = strOf "" := by
  refine ⟨fun s => ⟨fun h => ?_, fun h => ⟨?_, ?_⟩⟩, by decide, by decide, by decide⟩
  · simp [norm_cep, h]
  · simp [norm_cep, List.isEmpty_iff, h]
  · have hne : (s.filter Char.isDigit).isEmpty = false := by
      simp [List.isEmpty_iff, h]
    simp only [norm_cep, hne, Bool.false_eq_true, if_false, List.length_append,
      List.length_replicate]
    omega

/-- Claim C3 amended, witness at a one-digit input. -/
theorem claim_C3_amended_witness :
    (strOf "9").filter Char.isDigit ≠ [] ∧
      norm_cep (strOf "9") =
        List.replicate (8 - ((strOf "9").filter Char.isDigit).length) '0' ++
          (strOf "9").filter Char.isDigit :=
  ⟨by decide, ((claim_C3_amended.1 (strOf "9")).2 (by decide)).1⟩

/-- Claim C6 counterexample: when the snapshot loads but lacks the key
column, the base is rebuilt by re-parsing the snapshot file itself through
parse_txt_to_df, not from the raw txt source, and the snapshot file is not
rewritten — refuting the claim that this case falls back to the raw txt
base. -/
theorem claim_C6_cex :
    (ensure_base_loaded true true false true).1 ≠ BaseOrigin.parseTxt ∧
      ensure_base_loaded true true false true = (BaseOrigin.reparseSnapshot, false) := by
  decide

/-- Claim C6 amended: if reading the snapshot raises, the base table is
rebuilt from the raw txt source through the full parsing pipeline and the
snapshot rewritten when the txt source exists (empty default otherwise);
but when the snapshot loads and merely lacks the key column, the snapshot
file itself is re-parsed through parse_txt_to_df and is not discarded. -/
theorem claim_C6_amended :
    ∀ csvHasChave txtExists : Bool,
      ensure_base_loaded true false csvHasChave true = (BaseOrigin.parseTxt, true) ∧
      ensure_base_loaded true false csvHasChave false = (BaseOrigin.vazia, false) ∧
      ensure_base_loaded true true false txtExists = (BaseOrigin.reparseSnapshot, false) := by
  decide

/-- Claim C7: split_linha applies exactly the three-tier fallback — a line
containing a tab splits on tab runs even when it also contains double
spaces, a tab-free line splits on runs of two or more whitespace
characters, and only when that yields a single token does it split on any
whitespace run — illustrated on concrete lines for each tier. -/
theorem claim_C7 (l : List Char) :
    ('\t' ∈ l → split_linha l = splitRuns (fun c => c == '\t') l) ∧
    ('\t' ∉ l → (splitRuns2 isPySpace l).length ≠ 1 →
      split_linha l = splitRuns2 isPySpace l) ∧
    ('\t' ∉ l → (splitRuns2 isPySpace l).length = 1 →
      split_linha l = splitRuns isPySpace l) ∧
    split_linha (strOf "a\tb  c") = [strOf "a", strOf "b  c"] ∧
    split_linha (strOf "a  b c") = [strOf "a", strOf "b c"] ∧
    split_linha (strOf "a b") = [strOf "a", strOf "b"] := by
  refine ⟨fun h => ?_, fun h h2 => ?_, fun h h2 => ?_, by decide, by decide, by decide⟩
  · simp [split_linha, h]
  · simp [split_linha, h, h2]
  · simp [split_linha, h, h2]

/-- Claim C7, witness: a line holding both a tab and a double space takes
the tab tier. -/
theorem claim_C7_witness :
    '\t' ∈ strOf "a\tb  c" ∧
      split_linha (strOf "a\tb  c") =
        splitRuns (fun c => c == '\t') (strOf "a\tb  c") :=
  ⟨by decide, (claim_C7 (strOf "a\tb  c")).1 (by decide)⟩

/-- Claim C9: when reading and parsing the uploaded daily file raises, the
upload route reports the underlying error message and leaves the stored
match result unchanged — no partial match result is stored. -/
theorem claim_C9 (dfBase : DF) (dfMatch : Option DF) (fn msg : List Char)
    (hf : fn.isEmpty = false) (he : ALLOWED_EXT.contains (extOf fn) = true) :
    upload_dia dfBase dfMatch ⟨true, fn, .error msg⟩ = (dfMatch, .erroParse msg) := by
  have he2 : extOf fn ∈ ALLOWED_EXT := by simpa using he
  simp [upload_dia, hf, he2]

/-- Claim C9, witness at a concrete failing upload. -/
theorem claim_C9_witness :
    (strOf "dia.txt").isEmpty = false ∧
      ALLOWED_EXT.contains (extOf (strOf "dia.txt")) = true ∧
      upload_dia ⟨[], []⟩ (some ⟨[strOf "x"], [[strOf "v"]]⟩)
          ⟨true, strOf "dia.txt", .error (strOf "boom")⟩ =
        (some ⟨[strOf "x"], [[strOf "v"]]⟩, .erroParse (strOf "boom")) :=
  ⟨by decide, by decide,
    claim_C9 ⟨[], []⟩ (some ⟨[strOf "x"], [[strOf "v"]]⟩) (strOf "dia.txt")
      (strOf "boom") (by decide) (by decide)⟩

/-- Claim C10: the byte decoder is total and already succeeds at the utf-8
or latin-1 attempt — latin-1 decodes every byte sequence, so the cp1252
attempt and the lossy fallback are unreachable — and when the latin-1
branch is taken every input byte maps to exactly one output character, so
no input byte is silently discarded. -/
theorem claim_C10 (bs : List Byte) :
    try_decode_bytes bs =
      (match utf8Decode bs with
       | some s => s
       | none => latin1Decode bs) ∧
    (utf8Decode bs = none → (try_decode_bytes bs).length = bs.length) := by
  constructor
  · cases h : utf8Decode bs <;> simp [try_decode_bytes, latin1DecodeOpt, h]
  · intro h
    simp [try_decode_bytes, latin1DecodeOpt, h, latin1Decode]

/-- Claim C10, witness at a byte sequence the utf-8 attempt rejects. -/
theorem claim_C10_witness :
    utf8Decode [(255 : Fin 256)] = none ∧
      (try_decode_bytes [(255 : Fin 256)]).length = [(255 : Fin 256)].length :=
  ⟨by decide, (claim_C10 [(255 : Fin 256)]).2 (by decide)⟩

/-- Claim C5 counterexample: the raw column name with the unaccented
address spelling and intervening text contains the origin marker and the
address marker and no sender marker, yet the column mapper keeps it
unchanged instead of renaming it to the canonical origin-address field. -/
theorem claim_C5_cex :
    containsSub ((pstrip (strOf "Endereco de Origem")).map pyLower) (strOf "endereco") = true ∧
    containsSub ((pstrip (strOf "Endereco de Origem")).map pyLower) (strOf "orig") = true ∧
    containsSub ((pstrip (strOf "Endereco de Origem")).map pyLower) (strOf "remetent") = false ∧
    mapColName (strOf "Endereco de Origem") ≠ strOf "EnderecoOrigem" := by
  decide

/-- Claim C5 amended: a raw column name without a sender marker is renamed
to the canonical origin-address field when its lowercase stripped form
contains the adjacent address-plus-origin marker in either spelling, or
contains the accented address marker together with the origin marker with
any intervening text; the unaccented address spelling is recognized only
when immediately adjacent to the origin marker. -/
theorem claim_C5_amended (c : List Char)
    (hs : containsSub ((pstrip c).map pyLower) (strOf "remetent") = false)
    (ha : containsSub ((pstrip c).map pyLower) (strOf "endereço orig") = true ∨
          containsSub ((pstrip c).map pyLower) (strOf "endereco orig") = true ∨
          (containsSub ((pstrip c).map pyLower) (strOf "endereço") = true ∧
           containsSub ((pstrip c).map pyLower) (strOf "orig") = true)) :
    mapColName c = strOf "EnderecoOrigem" := by
  unfold mapColName
  rcases ha with h | h | ⟨h1, h2⟩
  · simp [hs, h]
  · simp [hs, h]
  · simp [hs, h1, h2]

/-- Claim C5 amended, witness: the accented spelling with intervening text
is renamed. -/
theorem claim_C5_amended_witness :
    containsSub ((pstrip (strOf "Endereço de Origem")).map pyLower) (strOf "remetent") = false ∧
      mapColName (strOf "Endereço de Origem") = strOf "EnderecoOrigem" :=
  ⟨by decide,
    claim_C5_amended (strOf "Endereço de Origem") (by decide)
      (Or.inr (Or.inr ⟨by decide, by decide⟩))⟩

/-- Zipping a list with a mapped copy of itself and combining the pairs is
a map over the original list. -/
theorem zip_map_self {α β γ : Type} (xs : List α) (g : α → β) (h : α → β → γ) :
    (xs.zip (xs.map g)).map (fun p => h p.1 p.2) = xs.map (fun x => h x (g x)) := by
  induction xs with
  | nil => rfl
  | cons x xs ih => simp [ih]

/-- Filtering the flagged pairs built from one list and projecting the
first components is the same as filtering the list and mapping. -/
theorem filter_snd_map_fst {α β : Type} (xs : List α) (f : α → Bool) (g : α → β) :
    (((xs.map (fun x => (g x, f x))).filter (fun p => p.2)).map (fun p => p.1)) =
      (xs.filter f).map g := by
  induction xs with
  | nil => rfl
  | cons x xs ih => by_cases h : f x <;> simp [h, ih]

/-- Claim C1: the matcher flags a daily row as a repeat exactly when its
key occurs among the key values of the base table; the match result is
exactly the flagged subsequence of the daily rows (each row extended by its
boolean flag cell), in the original row order. -/
theorem claim_C1 (dfBase dfDia : DF)
    (hrep : isRepName ∉ dfDia.header) (_hc : chaveName ∈ dfDia.header) :
    (∀ r, is_repetido (getCol dfBase chaveName) (rowChave dfDia r) = true ↔
        rowChave dfDia r ∈ getCol dfBase chaveName) ∧
    (cruzamento dfBase dfDia).rows =
      (dfDia.rows.filter
          (fun r => is_repetido (getCol dfBase chaveName) (rowChave dfDia r))).map
        (fun r =>
          r ++ [boolCell (is_repetido (getCol dfBase chaveName) (rowChave dfDia r))]) ∧
    List.Sublist (cruzamento dfBase dfDia).rows
      (dfDia.rows.map (fun r =>
        r ++ [boolCell (is_repetido (getCol dfBase chaveName) (rowChave dfDia r))])) := by
  have hmem : ∀ r, is_repetido (getCol dfBase chaveName) (rowChave dfDia r) = true ↔
      rowChave dfDia r ∈ getCol dfBase chaveName := by
    intro r
    simp [is_repetido]
  have hrows : (cruzamento dfBase dfDia).rows =
      (dfDia.rows.filter
          (fun r => is_repetido (getCol dfBase chaveName) (rowChave dfDia r))).map
        (fun r =>
          r ++ [boolCell (is_repetido (getCol dfBase chaveName) (rowChave dfDia r))]) := by
    unfold cruzamento
    simp only [setCol, if_neg hrep]
    rw [List.map_map]
    have hA := zip_map_self dfDia.rows
      (boolCell ∘ fun r => is_repetido (getCol dfBase chaveName) (rowChave dfDia r))
      (fun a b => a ++ [b])
    simp only at hA
    rw [hA, List.zip_map']
    have := filter_snd_map_fst dfDia.rows
      (fun r => is_repetido (getCol dfBase chaveName) (rowChave dfDia r))
      (fun r =>
        r ++ [boolCell (is_repetido (getCol dfBase chaveName) (rowChave dfDia r))])
    simpa using this
  refine ⟨hmem, hrows, ?_⟩
  rw [hrows]
  exact (List.filter_sublist _).map _

/-- Claim C1, witness on a concrete base and daily table. -/
theorem claim_C1_witness :
    isRepName ∉ (⟨[chaveName], [[strOf "K1"], [strOf "K2"]]⟩ : DF).header ∧
      chaveName ∈ (⟨[strOf "x", chaveName],
        [[strOf "a", strOf "K1"], [strOf "b", strOf "K9"]]⟩ : DF).header ∧
      (cruzamento ⟨[chaveName], [[strOf "K1"], [strOf "K2"]]⟩
          ⟨[strOf "x", chaveName],
            [[strOf "a", strOf "K1"], [strOf "b", strOf "K9"]]⟩).rows =
        ((⟨[strOf "x", chaveName],
            [[strOf "a", strOf "K1"], [strOf "b", strOf "K9"]]⟩ : DF).rows.filter
            (fun r => is_repetido
              (getCol ⟨[chaveName], [[strOf "K1"], [strOf "K2"]]⟩ chaveName)
              (rowChave ⟨[strOf "x", chaveName],
                [[strOf "a", strOf "K1"], [strOf "b", strOf "K9"]]⟩ r))).map
          (fun r => r ++ [boolCell (is_repetido
            (getCol ⟨[chaveName], [[strOf "K1"], [strOf "K2"]]⟩ chaveName)
            (rowChave ⟨[strOf "x", chaveName],
              [[strOf "a", strOf "K1"], [strOf "b", strOf "K9"]]⟩ r))]) :=
  ⟨by decide, by decide,
    (claim_C1 ⟨[chaveName], [[strOf "K1"], [strOf "K2"]]⟩
      ⟨[strOf "x", chaveName], [[strOf "a", strOf "K1"], [strOf "b", strOf "K9"]]⟩
      (by decide) (by decide)).2.1⟩

/-- Membership in the header after a column write: the written name is
present, every previously present name is still present, and nothing else
appears. -/
theorem mem_setCol_header (df : DF) (n m : List Char) (v : List (List Char)) :
    m ∈ (setCol df n v).header ↔ m ∈ df.header ∨ m = n := by
  unfold setCol
  by_cases h : n ∈ df.header
  · simp only [if_pos h]
    constructor
    · exact Or.inl
    · rintro (hm | rfl)
      · exact hm
      · exact h
  · simp [if_neg h]

/-- Membership in the header after the guarantee step. -/
theorem mem_ensureCol_header (df : DF) (n m : List Char) :
    m ∈ (ensureCol df n).header ↔ m ∈ df.header ∨ m = n := by
  unfold ensureCol
  by_cases h : n ∈ df.header
  · simp only [if_pos h]
    constructor
    · exact Or.inl
    · rintro (hm | rfl)
      · exact hm
      · exact h
  · simp [if_neg h, mem_setCol_header]

/-- Membership in the header after a column transformation. -/
theorem mem_applyCol_header (df : DF) (n m : List Char) (f : List Char → List Char) :
    m ∈ (applyCol df n f).header ↔ m ∈ df.header ∨ m = n := by
  unfold applyCol
  exact mem_setCol_header df n m _

/-- Claim C2 counterexample: on input whose line list is empty the parser
returns a table with no columns at all, so the guaranteed columns do not
exist for that input, refuting the claim for an empty line list. -/
theorem claim_C2_cex :
    (parse_txt_to_df (strOf "")).header = [] ∧
      strOf "Remetente" ∉ (parse_txt_to_df (strOf "")).header := by
  decide

/-- Claim C2 amended: for every input whose non-blank line list is
nonempty, the parsed table contains the three canonical raw columns —
created and filled with empty strings when absent after renaming — and the
derived key column; an input with an empty line list instead yields the
empty table with no columns. -/
theorem claim_C2_amended (text : List Char) (h : linhasOf text ≠ []) :
    strOf "Remetente" ∈ (parse_txt_to_df text).header ∧
    strOf "EnderecoOrigem" ∈ (parse_txt_to_df text).header ∧
    strOf "CEPOrigem" ∈ (parse_txt_to_df text).header ∧
    chaveName ∈ (parse_txt_to_df text).header := by
  have hne : (linhasOf text).isEmpty = false := by
    simp [List.isEmpty_iff, h]
  rw [parse_txt_to_df]
  simp only [hne, Bool.false_eq_true, if_false]
  simp only [mem_setCol_header, mem_applyCol_header, mem_ensureCol_header]
  refine ⟨?_, ?_, ?_, ?_⟩ <;> simp

/-- Claim C2 amended, witness at a one-line input. -/
theorem claim_C2_amended_witness :
    linhasOf (strOf "a") ≠ [] ∧ chaveName ∈ (parse_txt_to_df (strOf "a")).header :=
  ⟨by decide, (claim_C2_amended (strOf "a") (by decide)).2.2.2⟩

/-- Every character the unidecode model emits is ASCII. -/
theorem unidecodeChar_ascii {x c : Char} (h : c ∈ unidecodeChar x) : c.toNat < 128 := by
  unfold unidecodeChar at h
  by_cases hx : x.toNat < 128
  · simp only [if_pos hx, List.mem_singleton] at h
    subst h
    exact hx
  · simp only [if_neg hx] at h
    cases hf : uniTable.find? (fun p => p.1 == x) with
    | none => simp [hf] at h
    | some p =>
      simp only [hf, List.mem_singleton] at h
      subst h
      have hp := List.mem_of_find?_eq_some hf
      have hall : ∀ q ∈ uniTable, q.2.toNat < 128 := by decide
      exact hall p hp

/-- Every character of the transliterated string is ASCII. -/
theorem unidecodeStr_ascii {l : List Char} {c : Char} (h : c ∈ unidecodeStr l) :
    c.toNat < 128 := by
  unfold unidecodeStr at h
  rw [List.mem_flatten] at h
  obtain ⟨t, ht, hc⟩ := h
  rw [List.mem_map] at ht
  obtain ⟨x, _, rfl⟩ := ht
  exact unidecodeChar_ascii hc

/-- Uppercasing keeps ASCII characters ASCII. -/
theorem toUpper_ascii_lt {c : Char} (h : c.toNat < 128) : c.toUpper.toNat < 128 := by
  have h128 : ∀ n, n < 128 → (Char.ofNat n).toUpper.toNat < 128 := by decide
  have := h128 c.toNat h
  rwa [Char.ofNat_toNat] at this

/-- Uppercasing an ASCII character is idempotent. -/
theorem toUpper_idem_of_ascii {c : Char} (h : c.toNat < 128) :
    c.toUpper.toUpper = c.toUpper := by
  have h128 : ∀ n, n < 128 → (Char.ofNat n).toUpper.toUpper = (Char.ofNat n).toUpper := by
    decide
  have := h128 c.toNat h
  rwa [Char.ofNat_toNat] at this

/-- Stripping only removes characters. -/
theorem mem_pstrip {l : List Char} {c : Char} (h : c ∈ pstrip l) : c ∈ l := by
  unfold pstrip at h
  rw [List.mem_reverse] at h
  have h1 := (List.dropWhile_sublist _).subset h
  rw [List.mem_reverse] at h1
  exact (List.dropWhile_sublist _).subset h1

/-- Every character the punctuation substitution emits is a space or a
word-or-whitespace character of the input. -/
theorem subPunct_chars {l : List Char} {c : Char} (h : c ∈ subPunct l) :
    c = ' ' ∨ (c ∈ l ∧ (isWordChar c || isPySpace c) = true) := by
  unfold subPunct at h
  rw [List.mem_map] at h
  obtain ⟨x, hx, rfl⟩ := h
  by_cases hw : (isWordChar x || isPySpace x) = true
  · right
    rw [if_pos hw]
    exact ⟨hx, hw⟩
  · left
    rw [if_neg hw]

/-- Every character the whitespace collapse emits is a plain space or a
non-whitespace character of the input. -/
theorem collapseWsGo_chars {l : List Char} {b : Bool} {c : Char}
    (h : c ∈ collapseWsGo l b) : c = ' ' ∨ (c ∈ l ∧ isPySpace c = false) := by
  induction l generalizing b with
  | nil => simp [collapseWsGo] at h
  | cons x xs ih =>
    rw [collapseWsGo] at h
    by_cases hx : isPySpace x
    · rw [if_pos hx] at h
      cases b with
      | true =>
        simp only [if_pos rfl] at h
        rcases ih h with h1 | ⟨h1, h2⟩
        · exact Or.inl h1
        · exact Or.inr ⟨List.mem_cons_of_mem _ h1, h2⟩
      | false =>
        simp only [Bool.false_eq_true, if_false, List.mem_cons] at h
        rcases h with rfl | h
        · exact Or.inl rfl
        · rcases ih h with h1 | ⟨h1, h2⟩
          · exact Or.inl h1
          · exact Or.inr ⟨List.mem_cons_of_mem _ h1, h2⟩
    · rw [if_neg hx, List.mem_cons] at h
      rcases h with rfl | h
      · exact Or.inr ⟨List.mem_cons_self _ _, by simpa using hx⟩
      · rcases ih h with h1 | ⟨h1, h2⟩
        · exact Or.inl h1
        · exact Or.inr ⟨List.mem_cons_of_mem _ h1, h2⟩

/-- After an emitted space the collapse never emits another leading
space. -/
theorem collapseWsGo_not_startsSpace (l : List Char) :
    startsSpace (collapseWsGo l true) = false := by
  induction l with
  | nil => rfl
  | cons x xs ih =>
    rw [collapseWsGo]
    by_cases hx : isPySpace x
    · rw [if_pos hx, if_pos rfl]
      exact ih
    · rw [if_neg hx]
      simpa [startsSpace] using hx

/-- The collapse output never has two adjacent whitespace characters. -/
theorem collapseWsGo_noDouble (l : List Char) (b : Bool) :
    noDoubleSpace (collapseWsGo l b) = true := by
  induction l generalizing b with
  | nil => cases b <;> rfl
  | cons x xs ih =>
    rw [collapseWsGo]
    by_cases hx : isPySpace x
    · rw [if_pos hx]
      cases b with
      | true => simpa using ih true
      | false =>
        simp only [Bool.false_eq_true, if_false]
        rw [noDoubleSpace]
        rw [collapseWsGo_not_startsSpace xs]
        simpa using ih true
    · rw [if_neg hx]
      rw [noDoubleSpace]
      simp [hx, ih false]

/-- On a list without double whitespace whose whitespace characters are all
plain spaces, the collapse is the identity. -/
theorem collapseWsGo_id (l : List Char)
    (hsp : ∀ c ∈ l, isPySpace c = true → c = ' ')
    (hnd : noDoubleSpace l = true) :
    collapseWsGo l false = l ∧ (startsSpace l = false → collapseWsGo l true = l) := by
  induction l with
  | nil => exact ⟨rfl, fun _ => rfl⟩
  | cons x xs ih =>
    have hnd' := hnd
    rw [noDoubleSpace, Bool.and_eq_true] at hnd'
    have hnd2 : noDoubleSpace xs = true := hnd'.2
    have hsp2 : ∀ c ∈ xs, isPySpace c = true → c = ' ' :=
      fun c hc => hsp c (List.mem_cons_of_mem _ hc)
    obtain ⟨ih0, ih1⟩ := ih hsp2 hnd2
    by_cases hx : isPySpace x
    · have hxe : x = ' ' := hsp x (List.mem_cons_self _ _) hx
      have hss : startsSpace xs = false := by
        have h1 := hnd'.1
        rw [hx] at h1
        simpa using h1
      constructor
      · rw [collapseWsGo, if_pos hx]
        simp only [Bool.false_eq_true, if_false]
        rw [ih1 hss, hxe]
      · intro hstart
        rw [startsSpace, hx] at hstart
        cases hstart
    · constructor
      · rw [collapseWsGo, if_neg hx, ih0]
      · intro _
        rw [collapseWsGo, if_neg hx, ih0]

/-- Character classification of the text normalization output: every
character is a plain space or an ASCII word character fixed by
uppercasing. -/
theorem norm_text_chars {s : List Char} {c : Char} (h : c ∈ norm_text s) :
    c = ' ' ∨ (c.toNat < 128 ∧ isWordChar c = true ∧ isPySpace c = false ∧
      c.toUpper = c) := by
  unfold norm_text collapseWs at h
  rcases collapseWsGo_chars h with h1 | ⟨h1, hns⟩
  · exact Or.inl h1
  · rcases subPunct_chars h1 with h2 | ⟨h2, hws⟩
    · subst h2
      simp [isPySpace] at hns
    · right
      have hmem := mem_pstrip h2
      rw [List.mem_map] at hmem
      obtain ⟨x, hx, rfl⟩ := hmem
      have hxa : x.toNat < 128 := unidecodeStr_ascii hx
      have hca : x.toUpper.toNat < 128 := toUpper_ascii_lt hxa
      refine ⟨hca, ?_, hns, toUpper_idem_of_ascii hxa⟩
      rw [Bool.or_eq_true] at hws
      rcases hws with hw | hw
      · exact hw
      · rw [hw] at hns
        cases hns

/-- A map whose function fixes every element of the list is the
identity. -/
theorem map_id_of {α : Type} {l : List α} {f : α → α} (h : ∀ c ∈ l, f c = c) :
    l.map f = l := by
  induction l with
  | nil => rfl
  | cons x xs ih =>
    rw [List.map_cons, h x (List.mem_cons_self _ _),
      ih (fun c hc => h c (List.mem_cons_of_mem _ hc))]

/-- The unidecode model is the identity on ASCII strings. -/
theorem unidecodeStr_id {l : List Char} (h : ∀ c ∈ l, c.toNat < 128) :
    unidecodeStr l = l := by
  induction l with
  | nil => rfl
  | cons x xs ih =>
    have hx : unidecodeChar x = [x] := by
      unfold unidecodeChar
      rw [if_pos (h x (List.mem_cons_self _ _))]
    unfold unidecodeStr at ih ⊢
    rw [List.map_cons, List.flatten_cons, hx,
      ih (fun c hc => h c (List.mem_cons_of_mem _ hc))]
    rfl

/-- The postal normalization is a fixed point on every input. -/
theorem norm_cep_idem (s : List Char) : norm_cep (norm_cep s) = norm_cep s := by
  unfold norm_cep
  by_cases h : (s.filter Char.isDigit).isEmpty
  · simp [h]
  · simp only [h, Bool.false_eq_true, if_false]
    set d := s.filter Char.isDigit with hd
    have hall : ∀ c ∈ List.replicate (8 - d.length) '0' ++ d, Char.isDigit c := by
      intro c hc
      rw [List.mem_append] at hc
      rcases hc with hc | hc
      · rw [List.eq_of_mem_replicate hc]
        decide
      · rw [hd] at hc
        exact List.of_mem_filter hc
    have hfr : (List.replicate (8 - d.length) '0' ++ d).filter Char.isDigit =
        List.replicate (8 - d.length) '0' ++ d :=
      List.filter_eq_self.mpr hall
    rw [hfr]
    have hdne : d ≠ [] := by
      intro he
      exact h (by rw [he]; rfl)
    have hne : (List.replicate (8 - d.length) '0' ++ d).isEmpty = false := by
      rw [Bool.eq_false_iff]
      intro he
      rw [List.isEmpty_iff] at he
      exact hdne (List.append_eq_nil.mp he).2
    simp only [hne, Bool.false_eq_true, if_false]
    have hlen : 8 - (List.replicate (8 - d.length) '0' ++ d).length = 0 := by
      simp only [List.length_append, List.length_replicate]
      omega
    rw [hlen]
    rfl

/-- The text normalization applied to an already normalized string whose
strip is itself is the identity: the second pass only strips. -/
theorem norm_text_stable (s : List Char) (h : pstrip (norm_text s) = norm_text s) :
    norm_text (norm_text s) = norm_text s := by
  have hchars := fun c hc => @norm_text_chars s c hc
  have hascii : ∀ c ∈ norm_text s, c.toNat < 128 := by
    intro c hc
    rcases hchars c hc with rfl | ⟨h1, _⟩
    · decide
    · exact h1
  have hupper : ∀ c ∈ norm_text s, c.toUpper = c := by
    intro c hc
    rcases hchars c hc with rfl | ⟨_, _, _, h4⟩
    · decide
    · exact h4
  have hws : ∀ c ∈ norm_text s, (isWordChar c || isPySpace c) = true := by
    intro c hc
    rcases hchars c hc with rfl | ⟨_, h2, _, _⟩
    · simp [isPySpace]
    · simp [h2]
  have hsp : ∀ c ∈ norm_text s, isPySpace c = true → c = ' ' := by
    intro c hc hspc
    rcases hchars c hc with rfl | ⟨_, _, h3, _⟩
    · rfl
    · rw [h3] at hspc
      cases hspc
  have hnd : noDoubleSpace (norm_text s) = true := by
    unfold norm_text collapseWs
    exact collapseWsGo_noDouble _ _
  calc norm_text (norm_text s)
      = collapseWs (subPunct (pstrip ((norm_text s).map Char.toUpper))) := by
        rw [norm_text, unidecodeStr_id hascii]
    _ = collapseWs (subPunct (pstrip (norm_text s))) := by rw [map_id_of hupper]
    _ = collapseWs (subPunct (norm_text s)) := by rw [h]
    _ = collapseWs (norm_text s) := by
        unfold subPunct
        rw [map_id_of (fun c hc => by rw [if_pos (hws c hc)])]
    _ = norm_text s := (collapseWsGo_id (norm_text s) hsp hnd).1

/-- Claim C4 counterexample: text normalization is not a fixed point — on
the one-character punctuation string it returns a single space, whose
normalization is the empty string. -/
theorem claim_C4_cex :
    norm_text (norm_text (strOf ".")) ≠ norm_text (strOf ".") := by
  decide

/-- Claim C4 amended: the postal normalization is a fixed point on every
string; the text normalization is a fixed point exactly on the inputs whose
normalized form carries no leading or trailing whitespace (the strip step
runs before the punctuation substitution, so edge punctuation leaves an
edge space that only the second pass removes). -/
theorem claim_C4_amended :
    (∀ s : List Char, norm_cep (norm_cep s) = norm_cep s) ∧
    (∀ s : List Char, pstrip (norm_text s) = norm_text s →
      norm_text (norm_text s) = norm_text s) :=
  ⟨norm_cep_idem, norm_text_stable⟩

/-- Claim C4 amended, witness at an input whose normalization is
stripped. -/
theorem claim_C4_amended_witness :
    pstrip (norm_text (strOf "Acme")) = norm_text (strOf "Acme") ∧
      norm_text (norm_text (strOf "Acme")) = norm_text (strOf "Acme") :=
  ⟨by decide, claim_C4_amended.2 (strOf "Acme") (by decide)⟩

/-- The text normalization never emits a pipe character. -/
theorem pipe_not_mem_norm_text (s : List Char) : '|' ∉ norm_text s := by
  intro h
  rcases norm_text_chars h with h1 | ⟨_, h2, _, _⟩
  · exact (by decide : ('|' : Char) ≠ ' ') h1
  · exact absurd h2 (by decide)

/-- Every character of the postal normalization output is a digit. -/
theorem norm_cep_digits {s : List Char} {c : Char} (h : c ∈ norm_cep s) :
    c.isDigit = true := by
  unfold norm_cep at h
  by_cases he : (s.filter Char.isDigit).isEmpty
  · rw [if_pos he] at h
    cases h
  · rw [if_neg he, List.mem_append] at h
    rcases h with h | h
    · rw [List.eq_of_mem_replicate h]
      decide
    · exact List.of_mem_filter h

/-- The postal normalization never emits a pipe character. -/
theorem pipe_not_mem_norm_cep (s : List Char) : '|' ∉ norm_cep s := by
  intro h
  exact absurd (norm_cep_digits h) (by decide)

/-- Splitting at the first pipe is unambiguous when the prefixes are
pipe-free. -/
theorem pipe_append_inj {a b a2 b2 : List Char}
    (ha : '|' ∉ a) (ha2 : '|' ∉ a2)
    (h : a ++ '|' :: b = a2 ++ '|' :: b2) : a = a2 ∧ b = b2 := by
  induction a generalizing a2 with
  | nil =>
    cases a2 with
    | nil => simpa using h
    | cons y ys =>
      rw [List.nil_append, List.cons_append, List.cons_eq_cons] at h
      exact absurd (h.1 ▸ List.mem_cons_self y ys) ha2
  | cons x xs ih =>
    cases a2 with
    | nil =>
      rw [List.nil_append, List.cons_append, List.cons_eq_cons] at h
      exact absurd (h.1 ▸ List.mem_cons_self x xs) ha
    | cons y ys =>
      rw [List.cons_append, List.cons_append, List.cons_eq_cons] at h
      obtain ⟨rfl, h2⟩ := h
      obtain ⟨h3, h4⟩ := ih (fun hm => ha (List.mem_cons_of_mem _ hm))
        (fun hm => ha2 (List.mem_cons_of_mem _ hm)) h2
      exact ⟨by rw [h3], h4⟩

/-- Pipe-free parts make the pipe count of the key exactly two. -/
theorem montarChave_count (r e c : List Char)
    (hr : '|' ∉ r) (he : '|' ∉ e) (hc : '|' ∉ c) :
    (montarChave r e c).count '|' = 2 := by
  unfold montarChave
  rw [List.count_append, List.count_cons, List.count_append, List.count_cons]
  rw [List.count_eq_zero.mpr hr, List.count_eq_zero.mpr he, List.count_eq_zero.mpr hc]
  simp

/-- Claim C8: every key produced by the pipeline contains exactly two pipe
characters — the normalized sender, address and postal fields can never
themselves contain a pipe — and two keys are equal iff the three
normalized fields are pairwise equal. -/
theorem claim_C8 (s1 a1 c1 s2 a2 c2 : List Char) :
    (montarChave (norm_text s1) (norm_text a1) (norm_cep c1)).count '|' = 2 ∧
    (montarChave (norm_text s1) (norm_text a1) (norm_cep c1) =
        montarChave (norm_text s2) (norm_text a2) (norm_cep c2) ↔
      norm_text s1 = norm_text s2 ∧ norm_text a1 = norm_text a2 ∧
        norm_cep c1 = norm_cep c2) := by
  constructor
  · exact montarChave_count _ _ _ (pipe_not_mem_norm_text s1)
      (pipe_not_mem_norm_text a1) (pipe_not_mem_norm_cep c1)
  · constructor
    · intro h
      unfold montarChave at h
      obtain ⟨h1, h2⟩ :=
        pipe_append_inj (pipe_not_mem_norm_text s1) (pipe_not_mem_norm_text s2) h
      obtain ⟨h3, h4⟩ :=
        pipe_append_inj (pipe_not_mem_norm_text a1) (pipe_not_mem_norm_text a2) h2
      exact ⟨h1, h3, h4⟩
    · rintro ⟨h1, h2, h3⟩
      unfold montarChave
      rw [h1, h2, h3]
